import Mathlib

/-!
Verification development for the contact-book program
(`src/task3.contactbook.py`).  The Python functions are shallowly embedded
as executable Lean definitions: strings are `String`/`List Char`, the JSON
persistence layer is modelled by an explicit JSON value type together with
a serializer faithful to `json.dump(..., indent=2, ensure_ascii=False)` and
a parser faithful to `json.load`.  Interactive `input()` calls become
explicit string parameters; `print` output is ignored except where a flow
outcome matters, in which case it is reflected in an outcome type.
All character classes (digits, whitespace, lowercasing) are modelled at
ASCII scope, which covers every literal the program and its data use.
-/

namespace ContactBook

/-- Python whitespace characters (ASCII scope), as used by `str.strip`
and by the regex class `\s`. -/
def pySpace (c : Char) : Bool :=
  c = ' ' || c = '\t' || c = '\n' || c = '\r' || c = '\x0b' || c = '\x0c'

/-- `str.strip()` on a character list: drop whitespace from both ends. -/
def pyStripL (l : List Char) : List Char :=
  ((l.dropWhile pySpace).reverse.dropWhile pySpace).reverse

/-- `str.strip()`. -/
def pyStrip (s : String) : String := ⟨pyStripL s.data⟩

/-- `str.lower()` on a character list (ASCII scope). -/
def pyLowerL (l : List Char) : List Char := l.map Char.toLower

/-- `str.lower()`. -/
def pyLower (s : String) : String := ⟨pyLowerL s.data⟩

/-- Does `hay` start with `needle`? (helper for the Python `in` operator). -/
def startsWithL : List Char → List Char → Bool
  | [], _ => true
  | _ :: _, [] => false
  | a :: as, b :: bs => a = b && startsWithL as bs

/-- The Python substring operator `needle in hay`. -/
def containsSub (needle : List Char) : List Char → Bool
  | [] => startsWithL needle []
  | c :: cs => startsWithL needle (c :: cs) || containsSub needle cs

/-- Python `str.isdigit()` (ASCII scope): non-empty and all digits. -/
def pyIsDigitStr (s : String) : Bool :=
  !s.data.isEmpty && s.data.all Char.isDigit

/-- Python `int()` on a string of decimal digits. -/
def pyIntOfDigits (s : String) : Nat :=
  s.data.foldl (fun a c => 10 * a + (c.toNat - 48)) 0

/-- A contact record; `prompt_contact` always produces all four fields
(the Python dict literal at line 60 of the source). -/
structure Contact where
  name : String
  phone : String
  email : String
  address : String
deriving DecidableEq, Repr

/-- `valid_phone` (source lines 33-36): remove all non-digit characters
(`re.sub(r"\D", "", phone)`) and require at least 6 digits left. -/
def valid_phone (phone : String) : Bool :=
  decide (6 ≤ (phone.data.filter (fun c => c.isDigit)).length)

/-- Character class `[^@\s]` of the email regex: not `@` and not whitespace. -/
def emailClassB (c : Char) : Bool :=
  decide (c ≠ '@') && !pySpace c

/-- Is there a `.` at some position of the list other than the last one?
(helper for the `[^@\s]+\.[^@\s]+` part of the email regex: among the
characters after the first one of the domain, a dot that still has at
least one character after it). -/
def dotNotLast : List Char → Bool
  | [] => false
  | [_] => false
  | c :: rest => c = '.' || dotNotLast rest

/-- `[^@\s]+\.[^@\s]+` over an all-class list: at least one character,
then a dot somewhere that is neither the first nor the last position. -/
def hasInteriorDot : List Char → Bool
  | [] => false
  | _ :: rest => dotNotLast rest

/-- Python regex `$` semantics: `$` matches at the end of the string or
just before a final newline, so a single trailing `'\n'` is ignored. -/
def stripFinalNewline (l : List Char) : List Char :=
  match l.getLast? with
  | some c => if c = '\n' then l.dropLast else l
  | none => l

/-- The pattern `[^@\s]+@[^@\s]+\.[^@\s]+` matched against a whole
character list.  Since the class `[^@\s]` excludes `@`, the `@` of the
pattern is the first `@` of the string, so the regex is decided by
splitting there: a non-empty all-class part before the first `@`, and
after it an all-class domain with a dot at an interior position
(`emailRegexMatches_iff` below proves this split equivalent to the
existence of a decomposition matching the pattern). -/
def emailRegexMatches (cs : List Char) : Bool :=
  match cs.dropWhile (fun c => decide (c ≠ '@')) with
  | '@' :: dom =>
    !(cs.takeWhile (fun c => decide (c ≠ '@'))).isEmpty &&
      (cs.takeWhile (fun c => decide (c ≠ '@'))).all emailClassB &&
      dom.all emailClassB && hasInteriorDot dom
  | _ => false

/-- `valid_email` (source lines 38-39):
`bool(re.match(r"^[^@\s]+@[^@\s]+\.[^@\s]+$", email))`.  `re.match`
anchors at the start, and `$` matches at the end of the string or just
before one final newline (Python `re` semantics), handled by
`stripFinalNewline`. -/
def valid_email (email : String) : Bool :=
  emailRegexMatches (stripFinalNewline email.data)

/-- The field that failed validation in one round of `prompt_contact`. -/
inductive BadField where
  | name
  | phone
  | email
deriving DecidableEq, Repr

/-- Fallback of `prompt_contact`: `input(...).strip() or existing.get(k, "")`. -/
def fallback (inp existingVal : String) : String :=
  if pyStrip inp = "" then existingVal else pyStrip inp

/-- `existing.get(key, "")` with `existing = existing or {}`
(source line 42): the field of the existing record, or the empty string
when updating nothing. -/
def existingField (existing : Option Contact) (f : Contact → String) : String :=
  match existing with
  | some c => f c
  | none => ""

/-- One round of `prompt_contact` (source lines 41-60) given the existing
record (or none) and the four raw `input()` strings, in prompt order.
Each field falls back to the existing value when the stripped input is
empty; a failed check means the Python code would re-prompt (the loops at
lines 44, 49, 54), so no record is produced in this round.  This is the
`build_record` contract of spec section 4.3. -/
def build_record (existing : Option Contact) (nameIn phoneIn emailIn addressIn : String) :
    Except BadField Contact :=
  let exName := existingField existing Contact.name
  let exPhone := existingField existing Contact.phone
  let exEmail := existingField existing Contact.email
  let exAddress := existingField existing Contact.address
  let name := fallback nameIn exName
  if name = "" then .error .name
  else
    let phone := fallback phoneIn exPhone
    if phone ≠ "" && !valid_phone phone then .error .phone
    else
      let email := fallback emailIn exEmail
      if email ≠ "" && !valid_email email then .error .email
      else .ok ⟨name, phone, email, fallback addressIn exAddress⟩

/-- `add_contact` (source lines 62-67) for one round of prompting: on a
successful round the contact is appended and the store is saved (the
returned Bool records whether `save_contacts` was called); a failed round
has not reached the append/save statements yet. -/
def add_contact (contacts : List Contact) (nameIn phoneIn emailIn addressIn : String) :
    List Contact × Bool :=
  match build_record none nameIn phoneIn emailIn addressIn with
  | .ok c => (contacts ++ [c], true)
  | .error _ => (contacts, false)

/-- The match test of `search_contacts` (source line 84) for one record:
the already lowercased and stripped term is a substring of the lowercased
name or of the lowercased raw phone text. -/
def matchesTerm (t : List Char) (c : Contact) : Bool :=
  containsSub t (pyLowerL c.name.data) || containsSub t (pyLowerL c.phone.data)

/-- The `enumerate` loop of `search_contacts` (source lines 82-86). -/
def searchAux (t : List Char) : List Contact → Nat → List Nat
  | [], _ => []
  | c :: cs, idx =>
    if matchesTerm t c then idx :: searchAux t cs (idx + 1)
    else searchAux t cs (idx + 1)

/-- `search_contacts` (source lines 80-86): `term = term.lower().strip()`,
then collect the indices of the records whose name or phone contains it. -/
def search_contacts (contacts : List Contact) (term : String) : List Nat :=
  searchAux (pyStripL (pyLowerL term.data)) contacts 0

/-- The selection block shared verbatim by `update_contact`
(source lines 110-119) and `delete_contact` (source lines 143-150):
if the choice is all digits, read it as a number; a valid 1-based rank
into the hit list wins, otherwise a valid 1-based absolute index into the
store; anything else resolves to nothing. -/
def resolveSelection (hits : List Nat) (storeLen : Nat) (choice : String) : Option Nat :=
  if pyIsDigitStr choice then
    let num := pyIntOfDigits choice
    if 1 ≤ num ∧ num ≤ hits.length then some (hits.getD (num - 1) 0)
    else if 1 ≤ num ∧ num ≤ storeLen then some (num - 1)
    else none
  else none

/-- Outcome of one run of `delete_contact`. -/
inductive DeleteOutcome where
  | termRequired
  | noMatch
  | canceled
  | invalidSelection
  | deleted
  | deletionCanceled
deriving DecidableEq, Repr

/-- `delete_contact` (source lines 130-161) with the three `input()`
results as parameters.  Returns the store afterwards, whether
`save_contacts` was called, and the printed outcome. -/
def delete_contact (contacts : List Contact) (termIn choiceIn confirmIn : String) :
    List Contact × Bool × DeleteOutcome :=
  let term := pyStrip termIn
  if term = "" then (contacts, false, .termRequired)
  else
    let hits := search_contacts contacts term
    if hits.isEmpty then (contacts, false, .noMatch)
    else
      let choice := pyStrip choiceIn
      if choice = "" then (contacts, false, .canceled)
      else
        match resolveSelection hits contacts.length choice with
        | none => (contacts, false, .invalidSelection)
        | some idx =>
          let confirm := pyLower (pyStrip confirmIn)
          if confirm = "y" then (contacts.eraseIdx idx, true, .deleted)
          else (contacts, false, .deletionCanceled)

/-- The mutation of `update_contact` at line 126: replace the record at
the selected position (then the code saves). -/
def update_apply (contacts : List Contact) (idx : Nat) (c : Contact) : List Contact :=
  contacts.set idx c

/-! ## The JSON persistence layer

`load_contacts` is `json.load` on the store file and `save_contacts` is
`json.dump(contacts, f, indent=2, ensure_ascii=False)` (source lines
20-31).  JSON values are modelled explicitly; number literals are kept as
their source lexemes (their int/float numeric value plays no role in any
property of this development). -/

/-- A JSON value as handled by Python's `json` module.  Objects are
insertion-ordered key/value lists, matching Python dicts. -/
inductive Json where
  | null : Json
  | bool : Bool → Json
  | num : String → Json
  | str : String → Json
  | arr : List Json → Json
  | obj : List (String × Json) → Json

/-- JSON inter-token whitespace (`json.decoder.WHITESPACE_STR`). -/
def jsonWs (c : Char) : Bool :=
  c = ' ' || c = '\t' || c = '\n' || c = '\r'

/-- Skip JSON whitespace. -/
def skipWs (cs : List Char) : List Char := cs.dropWhile jsonWs

/-- Value of one hexadecimal digit (`int(c, 16)` on a single digit). -/
def hexVal (c : Char) : Option Nat :=
  if c.isDigit then some (c.toNat - 48)
  else if 'a' ≤ c ∧ c ≤ 'f' then some (c.toNat - 87)
  else if 'A' ≤ c ∧ c ≤ 'F' then some (c.toNat - 55)
  else none

/-- The two-character string escapes of JSON (`json.decoder.BACKSLASH`). -/
def simpleEscape (c : Char) : Option Char :=
  if c = '"' then some '"'
  else if c = '\\' then some '\\'
  else if c = '/' then some '/'
  else if c = 'b' then some '\x08'
  else if c = 'f' then some '\x0c'
  else if c = 'n' then some '\n'
  else if c = 'r' then some '\r'
  else if c = 't' then some '\t'
  else none

/-- Scan a JSON string after its opening quote (`json.decoder.scanstring`
with `strict=True`): raw characters up to the closing quote, two-character
escapes, and `\uXXXX` escapes; an unescaped control character below 0x20
is an error.  (Surrogate-pair joining of adjacent `\u` escapes is not
modelled; the serializer below never emits surrogate escapes.) -/
def parseStringBody : List Char → Option (List Char × List Char)
  | [] => none
  | c :: rest =>
    if c = '"' then some ([], rest)
    else if c = '\\' then
      match rest with
      | 'u' :: h1 :: h2 :: h3 :: h4 :: rest2 =>
        match hexVal h1, hexVal h2, hexVal h3, hexVal h4 with
        | some a, some b, some g, some d =>
          match parseStringBody rest2 with
          | some (s, r) => some (Char.ofNat (((a * 16 + b) * 16 + g) * 16 + d) :: s, r)
          | none => none
        | _, _, _, _ => none
      | e :: rest2 =>
        match simpleEscape e with
        | some c2 =>
          match parseStringBody rest2 with
          | some (s, r) => some (c2 :: s, r)
          | none => none
        | none => none
      | [] => none
    else if c.toNat < 32 then none
    else
      match parseStringBody rest with
      | some (s, r) => some (c :: s, r)
      | none => none

/-- Integer part of the JSON number grammar: `0` or `[1-9]\d*`. -/
def parseIntPart : List Char → Option (List Char × List Char)
  | '0' :: rest => some (['0'], rest)
  | c :: rest =>
    if c.isDigit then
      some (c :: rest.takeWhile Char.isDigit, rest.dropWhile Char.isDigit)
    else none
  | [] => none

/-- Optional fraction group `(\.\d+)?`: if no digit follows the dot the
group does not participate (regex backtracking). -/
def parseFrac (cs : List Char) : List Char × List Char :=
  match cs with
  | '.' :: rest =>
    let ds := rest.takeWhile Char.isDigit
    if ds.isEmpty then ([], cs)
    else ('.' :: ds, rest.dropWhile Char.isDigit)
  | _ => ([], cs)

/-- Optional exponent group `([eE][-+]?\d+)?`, again backtracking to
nothing when incomplete. -/
def parseExp (cs : List Char) : List Char × List Char :=
  match cs with
  | e :: rest =>
    if e = 'e' || e = 'E' then
      match rest with
      | s :: rest2 =>
        if s = '+' || s = '-' then
          let ds := rest2.takeWhile Char.isDigit
          if ds.isEmpty then ([], cs)
          else (e :: s :: ds, rest2.dropWhile Char.isDigit)
        else
          let ds := rest.takeWhile Char.isDigit
          if ds.isEmpty then ([], cs)
          else (e :: ds, rest.dropWhile Char.isDigit)
      | [] => ([], cs)
    else ([], cs)
  | [] => ([], cs)

/-- `json.scanner.NUMBER_RE`: `(-?(?:0|[1-9]\d*))(\.\d+)?([eE][-+]?\d+)?`,
returning the matched lexeme and the remaining input. -/
def parseNumber (cs : List Char) : Option (List Char × List Char) :=
  let sgn := match cs with | '-' :: r => (['-'], r) | _ => (([] : List Char), cs)
  match parseIntPart sgn.2 with
  | none => none
  | some (ip, cs2) =>
    let fp := parseFrac cs2
    let ep := parseExp fp.2
    some (sgn.1 ++ ip ++ fp.1 ++ ep.1, ep.2)

/-- Assignment `d[k] = v` on a Python dict rendered as an ordered
key/value list: an existing key keeps its position and gets the new
value, a new key is appended. -/
def insertPair (fs : List (String × Json)) (k : String) (v : Json) : List (String × Json) :=
  if fs.any (fun p => p.1 == k) then
    fs.map (fun p => if p.1 == k then (k, v) else p)
  else fs ++ [(k, v)]

/-- The non-recursive leaf cases of `_scan_once`: the keyword constants
`null`, `true`, `false`, the non-finite constants `NaN`, `Infinity`,
`-Infinity` accepted by `json.load`'s default `parse_constant`, and
otherwise a number via `NUMBER_RE`. -/
def parseAtom (cs : List Char) : Option (Json × List Char) :=
  match cs with
  | 'n' :: 'u' :: 'l' :: 'l' :: rest => some (.null, rest)
  | 't' :: 'r' :: 'u' :: 'e' :: rest => some (.bool true, rest)
  | 'f' :: 'a' :: 'l' :: 's' :: 'e' :: rest => some (.bool false, rest)
  | 'N' :: 'a' :: 'N' :: rest => some (.num "NaN", rest)
  | 'I' :: 'n' :: 'f' :: 'i' :: 'n' :: 'i' :: 't' :: 'y' :: rest =>
    some (.num "Infinity", rest)
  | '-' :: 'I' :: 'n' :: 'f' :: 'i' :: 'n' :: 'i' :: 't' :: 'y' :: rest =>
    some (.num "-Infinity", rest)
  | _ =>
    match parseNumber cs with
    | some (lex, rest) => some (.num ⟨lex⟩, rest)
    | none => none

mutual

/-- One JSON value (`json.scanner.py_make_scanner`'s `_scan_once`,
together with the whitespace skipping every caller performs before it).
The fuel argument only bounds the nesting/looping depth; the entry point
`parseJson` passes one more than the input length, which a recursive call
never exhausts since each one first consumes at least one character. -/
def parseValue : Nat → List Char → Option (Json × List Char)
  | 0, _ => none
  | fuel + 1, cs =>
    match skipWs cs with
    | [] => none
    | c :: rest =>
      if c = '"' then
        match parseStringBody rest with
        | some (s, r) => some (.str ⟨s⟩, r)
        | none => none
      else if c = '\x7b' then
        match skipWs rest with
        | '\x7d' :: r => some (.obj [], r)
        | _ => parseObjItems fuel rest []
      else if c = '[' then
        match skipWs rest with
        | ']' :: r => some (.arr [], r)
        | _ => parseArrItems fuel rest []
      else parseAtom (c :: rest)

/-- The member loop of `json.decoder.JSONObject`, entered when the object
is not empty: a quoted key, `:`, a value, then `,` and the next member or
`\x7d` and the end. -/
def parseObjItems : Nat → List Char → List (String × Json) → Option (Json × List Char)
  | 0, _, _ => none
  | fuel + 1, cs, acc =>
    match skipWs cs with
    | '"' :: r =>
      match parseStringBody r with
      | some (k, r1) =>
        match skipWs r1 with
        | ':' :: r2 =>
          match parseValue fuel r2 with
          | some (v, r3) =>
            match skipWs r3 with
            | ',' :: r4 => parseObjItems fuel r4 (insertPair acc ⟨k⟩ v)
            | '\x7d' :: r4 => some (.obj (insertPair acc ⟨k⟩ v), r4)
            | _ => none
          | none => none
        | _ => none
      | none => none
    | _ => none

/-- The element loop of `json.decoder.JSONArray`, entered when the array
is not empty: a value, then `,` and the next element or `]` and the end. -/
def parseArrItems : Nat → List Char → List Json → Option (Json × List Char)
  | 0, _, _ => none
  | fuel + 1, cs, acc =>
    match parseValue fuel cs with
    | some (v, r) =>
      match skipWs r with
      | ',' :: r2 => parseArrItems fuel r2 (acc ++ [v])
      | ']' :: r2 => some (.arr (acc ++ [v]), r2)
      | _ => none
    | none => none

end

/-- `json.loads`: skip leading whitespace, scan one value, and reject
trailing non-whitespace ("Extra data"). -/
def parseJson (s : String) : Option Json :=
  match parseValue (s.data.length + 1) s.data with
  | some (j, rest) => if skipWs rest = [] then some j else none
  | none => none

/-- `load_contacts` (source lines 20-27), with the file modelled as
`none` (absent) or `some content`: a missing file and a
`json.JSONDecodeError` both yield the empty list. -/
def load_contacts (file : Option String) : Json :=
  match file with
  | none => .arr []
  | some s =>
    match parseJson s with
    | some j => j
    | none => .arr []

/-- `indent * level` spaces (the `indent=2` setting). -/
def pad (n : Nat) : List Char := List.replicate n ' '

/-- The newline-plus-indent separator `json.encoder` inserts at depth
`lvl` when `indent=2`. -/
def nlPad (lvl : Nat) : List Char := '\n' :: pad (2 * lvl)

/-- Hexadecimal digit character, lowercase (`'%04x'` formatting). -/
def hexDigitChar (n : Nat) : Char :=
  if n < 10 then Char.ofNat (48 + n) else Char.ofNat (87 + n)

/-- `json.encoder.py_encode_basestring` (used since `ensure_ascii=False`)
on one character: escape backslash, quote and control characters, the
latter with short escapes for `\b \t \n \f \r` and `\u00XX` otherwise;
every other character is emitted as itself. -/
def encChar (c : Char) : List Char :=
  if c = '\\' then ['\\', '\\']
  else if c = '"' then ['\\', '"']
  else if c = '\x08' then ['\\', 'b']
  else if c = '\t' then ['\\', 't']
  else if c = '\n' then ['\\', 'n']
  else if c = '\x0c' then ['\\', 'f']
  else if c = '\x0d' then ['\\', 'r']
  else if c.toNat < 32 then
    ['\\', 'u', '0', '0', hexDigitChar (c.toNat / 16), hexDigitChar (c.toNat % 16)]
  else [c]

/-- String-content encoding: each character escaped in order. -/
def encBody (l : List Char) : List Char :=
  l.foldr (fun c acc => encChar c ++ acc) []

/-- A JSON string literal: quotes around the escaped content. -/
def strLit (s : String) : List Char := '"' :: (encBody s.data ++ ['"'])

mutual

/-- `json.dump(v, f, indent=2, ensure_ascii=False)` at nesting depth
`lvl`: items separated by `','` plus a newline-indent, `': '` between key
and value, the closing bracket after a newline-indent at the parent
depth; empty containers are rendered inline. -/
def dumpValue : Nat → Json → List Char
  | _, .null => ['n', 'u', 'l', 'l']
  | _, .bool true => ['t', 'r', 'u', 'e']
  | _, .bool false => ['f', 'a', 'l', 's', 'e']
  | _, .num lex => lex.data
  | _, .str s => strLit s
  | _, .arr [] => ['[', ']']
  | lvl, .arr (x :: xs) =>
    '[' :: (nlPad (lvl + 1) ++ dumpValue (lvl + 1) x ++ dumpArrRest (lvl + 1) xs ++
      nlPad lvl ++ [']'])
  | _, .obj [] => ['\x7b', '\x7d']
  | lvl, .obj (f :: fs) =>
    '\x7b' :: (nlPad (lvl + 1) ++ dumpField (lvl + 1) f ++ dumpObjRest (lvl + 1) fs ++
      nlPad lvl ++ ['\x7d'])

/-- The remaining array elements, each preceded by the item separator. -/
def dumpArrRest : Nat → List Json → List Char
  | _, [] => []
  | lvl, x :: xs => ',' :: (nlPad lvl ++ dumpValue lvl x ++ dumpArrRest lvl xs)

/-- One object member: `"key": value`. -/
def dumpField : Nat → String × Json → List Char
  | lvl, (k, v) => strLit k ++ (':' :: ' ' :: dumpValue lvl v)

/-- The remaining object members, each preceded by the item separator. -/
def dumpObjRest : Nat → List (String × Json) → List Char
  | _, [] => []
  | lvl, f :: fs => ',' :: (nlPad lvl ++ dumpField lvl f ++ dumpObjRest lvl fs)

end

/-- `save_contacts` (source lines 29-31): the exact file content written
by `json.dump(contacts, f, indent=2, ensure_ascii=False)`. -/
def save_contacts (j : Json) : String := ⟨dumpValue 0 j⟩

/-- The dict built by `prompt_contact` (source line 60), keys in
insertion order. -/
def contactToJson (c : Contact) : Json :=
  .obj [("name", .str c.name), ("phone", .str c.phone),
        ("email", .str c.email), ("address", .str c.address)]

/-- The in-memory contact list as the JSON value handed to `json.dump`. -/
def contactsToJson (cs : List Contact) : Json :=
  .arr (cs.map contactToJson)

/-- Does a JSON value look like a well-formed stored contact: an object
whose `name`, `phone`, `email`, `address` members are all present with
text values and whose name is non-empty? -/
def getStrField (fs : List (String × Json)) (k : String) : Option String :=
  match fs.find? (fun p => p.1 == k) with
  | some (_, .str s) => some s
  | _ => none

/-- Check the stored-contact invariant on one JSON record. -/
def recordOkB (j : Json) : Bool :=
  match j with
  | .obj fs =>
    (match getStrField fs "name" with
     | some s => !s.isEmpty
     | none => false) &&
    (getStrField fs "phone").isSome &&
    (getStrField fs "email").isSome &&
    (getStrField fs "address").isSome
  | _ => false

/-- Check the stored-contact invariant on a whole loaded store. -/
def recordsOkB (j : Json) : Bool :=
  match j with
  | .arr xs => xs.all recordOkB
  | _ => false

/-! ## Helper lemmas: substring matching -/

theorem startsWithL_iff (needle hay : List Char) :
    startsWithL needle hay = true ↔ ∃ post, hay = needle ++ post := by
  induction needle generalizing hay with
  | nil => simp [startsWithL]
  | cons a as ih =>
    cases hay with
    | nil => simp [startsWithL]
    | cons b bs =>
      rw [startsWithL, Bool.and_eq_true, decide_eq_true_iff, ih]
      constructor
      · rintro ⟨rfl, post, rfl⟩
        exact ⟨post, rfl⟩
      · rintro ⟨post, h⟩
        rw [List.cons_append] at h
        cases h
        exact ⟨rfl, post, rfl⟩

theorem containsSub_iff (needle hay : List Char) :
    containsSub needle hay = true ↔ ∃ pre post, hay = pre ++ needle ++ post := by
  induction hay with
  | nil =>
    rw [containsSub, startsWithL_iff]
    constructor
    · rintro ⟨post, h⟩
      exact ⟨[], post, by simpa using h⟩
    · rintro ⟨pre, post, h⟩
      rw [eq_comm, List.append_eq_nil, List.append_eq_nil] at h
      exact ⟨[], by simp [h.1.2, h.2]⟩
  | cons c cs ih =>
    rw [containsSub, Bool.or_eq_true, startsWithL_iff, ih]
    constructor
    · rintro (⟨post, h⟩ | ⟨pre, post, rfl⟩)
      · exact ⟨[], post, by simpa using h⟩
      · exact ⟨c :: pre, post, rfl⟩
    · rintro ⟨pre, post, h⟩
      cases pre with
      | nil => exact Or.inl ⟨post, by simpa using h⟩
      | cons p ps =>
        rw [List.cons_append, List.cons_append] at h
        cases h
        exact Or.inr ⟨ps, post, rfl⟩

theorem containsSub_nil (hay : List Char) : containsSub [] hay = true := by
  cases hay <;> simp [containsSub, startsWithL]

/-! ## Helper lemmas: the search loop -/

theorem searchAux_mem (t : List Char) (cs : List Contact) (idx i : Nat) :
    i ∈ searchAux t cs idx ↔
      ∃ j c, cs.get? j = some c ∧ matchesTerm t c = true ∧ i = idx + j := by
  induction cs generalizing idx with
  | nil => simp [searchAux]
  | cons c cs ih =>
    rw [searchAux]
    by_cases h : matchesTerm t c = true
    · rw [if_pos h, List.mem_cons, ih]
      constructor
      · rintro (rfl | ⟨j, c2, hg, hm, rfl⟩)
        · exact ⟨0, c, rfl, h, by omega⟩
        · exact ⟨j + 1, c2, by simpa using hg, hm, by omega⟩
      · rintro ⟨j, c2, hg, hm, rfl⟩
        cases j with
        | zero =>
          simp only [List.get?] at hg
          cases hg
          exact Or.inl (by omega)
        | succ j =>
          exact Or.inr ⟨j, c2, by simpa using hg, hm, by omega⟩
    · rw [if_neg h, ih]
      constructor
      · rintro ⟨j, c2, hg, hm, rfl⟩
        exact ⟨j + 1, c2, by simpa using hg, hm, by omega⟩
      · rintro ⟨j, c2, hg, hm, rfl⟩
        cases j with
        | zero =>
          simp only [List.get?] at hg
          cases hg
          exact absurd hm h
        | succ j =>
          exact ⟨j, c2, by simpa using hg, hm, by omega⟩

theorem searchAux_lb (t : List Char) (cs : List Contact) (idx : Nat) :
    ∀ i ∈ searchAux t cs idx, idx ≤ i := by
  intro i hi
  obtain ⟨j, c, _, _, rfl⟩ := (searchAux_mem t cs idx i).mp hi
  omega

theorem searchAux_sorted (t : List Char) (cs : List Contact) (idx : Nat) :
    (searchAux t cs idx).Pairwise (· < ·) := by
  induction cs generalizing idx with
  | nil => simp [searchAux]
  | cons c cs ih =>
    rw [searchAux]
    by_cases h : matchesTerm t c = true
    · rw [if_pos h]
      refine List.Pairwise.cons (fun i hi => ?_) (ih (idx + 1))
      have := searchAux_lb t cs (idx + 1) i hi
      omega
    · rw [if_neg h]
      exact ih (idx + 1)

theorem searchAux_nil_needle (cs : List Contact) (idx : Nat) :
    searchAux [] cs idx = List.range' idx cs.length := by
  induction cs generalizing idx with
  | nil => simp [searchAux]
  | cons c cs ih =>
    rw [searchAux, if_pos, List.length_cons, List.range']
    · rw [ih]
    · simp [matchesTerm, containsSub_nil]

/-! ## Helper lemmas: stripping and lowercasing -/

theorem pySpace_char_cases (c : Char) (h : pySpace c = true) :
    c = ' ' ∨ c = '\t' ∨ c = '\n' ∨ c = '\r' ∨ c = '\x0b' ∨ c = '\x0c' := by
  have h2 := h
  simp only [pySpace, Bool.or_eq_true, decide_eq_true_iff] at h2
  tauto

theorem pySpace_of_large (c : Char) (h : 65 ≤ c.toNat) : pySpace c = false := by
  rcases e : pySpace c with _ | _
  · rfl
  · rcases pySpace_char_cases c e with rfl | rfl | rfl | rfl | rfl | rfl <;>
      exact absurd h (by decide)

theorem pySpace_letter (n : Nat) (h1 : 65 ≤ n) (h2 : n ≤ 90) :
    pySpace (Char.ofNat (n + 32)) = false := by
  interval_cases n <;> decide

theorem pySpace_toLower (c : Char) : pySpace (Char.toLower c) = pySpace c := by
  rw [Char.toLower]
  split
  · rename_i h
    rw [pySpace_letter c.toNat h.1 h.2, pySpace_of_large c h.1]
  · rfl

theorem toLower_of_pySpace (c : Char) (h : pySpace c = true) : Char.toLower c = c := by
  rcases pySpace_char_cases c h with rfl | rfl | rfl | rfl | rfl | rfl <;> decide

theorem pyLowerL_ws (ws : List Char) (h : ∀ c ∈ ws, pySpace c = true) :
    pyLowerL ws = ws := by
  rw [pyLowerL, List.map_congr_left (fun c hc => toLower_of_pySpace c (h c hc))]
  exact List.map_id' ws

theorem pyStripL_pad (ws1 ws2 l : List Char)
    (h1 : ∀ c ∈ ws1, pySpace c = true) (h2 : ∀ c ∈ ws2, pySpace c = true) :
    pyStripL (ws1 ++ l ++ ws2) = pyStripL l := by
  unfold pyStripL
  rw [List.append_assoc, List.dropWhile_append_of_pos h1]
  rcases e : l.dropWhile pySpace with _ | ⟨x, xs⟩
  · rw [List.dropWhile_append, e]
    simp only [List.isEmpty_nil, if_true]
    rw [List.dropWhile_eq_nil_iff.mpr h2]
  · rw [List.dropWhile_append, e]
    simp only [List.isEmpty_cons, Bool.false_eq_true, if_false]
    rw [List.reverse_append, List.dropWhile_append_of_pos
      (fun c hc => h2 c (List.mem_reverse.mp hc))]

theorem pyStripL_decomp (l : List Char) :
    ∃ ws1 ws2, (∀ c ∈ ws1, pySpace c = true) ∧ (∀ c ∈ ws2, pySpace c = true) ∧
      l = ws1 ++ pyStripL l ++ ws2 := by
  refine ⟨l.takeWhile pySpace, ((l.dropWhile pySpace).reverse.takeWhile pySpace).reverse,
    fun c hc => List.mem_takeWhile_imp hc,
    fun c hc => List.mem_takeWhile_imp (List.mem_reverse.mp hc), ?_⟩
  conv_lhs => rw [← List.takeWhile_append_dropWhile (p := pySpace) (l := l)]
  rw [List.append_assoc]
  congr 1
  unfold pyStripL
  rw [← List.reverse_append, List.takeWhile_append_dropWhile, List.reverse_reverse]

theorem pyStripL_lowerL_strip (t : List Char) :
    pyStripL (pyLowerL t) = pyStripL (pyLowerL (pyStripL t)) := by
  obtain ⟨ws1, ws2, h1, h2, hdec⟩ := pyStripL_decomp t
  conv_lhs => rw [hdec]
  rw [pyLowerL, List.map_append, List.map_append, ← pyLowerL, ← pyLowerL, ← pyLowerL,
    pyLowerL_ws ws1 h1, pyLowerL_ws ws2 h2, pyStripL_pad ws1 ws2 _ h1 h2]

theorem pyStripL_lowerL_comm (t : List Char) :
    pyStripL (pyLowerL t) = pyLowerL (pyStripL t) := by
  have hps : (pySpace ∘ Char.toLower) = pySpace := funext fun c => pySpace_toLower c
  unfold pyStripL pyLowerL
  rw [List.dropWhile_map, hps, ← List.map_reverse, List.dropWhile_map, hps,
    ← List.map_reverse]

theorem pyStripL_all_ws (t : List Char) (h : pyStripL t = []) :
    ∀ c ∈ t, pySpace c = true := by
  obtain ⟨ws1, ws2, h1, h2, hdec⟩ := pyStripL_decomp t
  rw [h, List.append_nil] at hdec
  subst hdec
  intro c hc
  rcases List.mem_append.mp hc with hc1 | hc2
  · exact h1 c hc1
  · exact h2 c hc2

/-! ## Helper lemmas: the email regex -/

theorem dropWhile_head_false {α : Type} (p : α → Bool) (l : List α) (x : α) (xs : List α)
    (h : l.dropWhile p = x :: xs) : p x = false := by
  induction l with
  | nil => exact absurd h (by simp)
  | cons c t ih =>
    rw [List.dropWhile_cons] at h
    split at h
    · exact ih h
    · cases h
      rename_i hc
      simpa using hc

theorem dotNotLast_iff (l : List Char) :
    dotNotLast l = true ↔ ∃ a b, l = a ++ '.' :: b ∧ b ≠ [] := by
  induction l with
  | nil =>
    constructor
    · intro h
      exact absurd h (by simp [dotNotLast])
    · rintro ⟨a, b, h, -⟩
      exact absurd h.symm (by simp)
  | cons c rest ih =>
    cases rest with
    | nil =>
      constructor
      · intro h
        exact absurd h (by simp [dotNotLast])
      · rintro ⟨a, b, h, hb⟩
        cases a with
        | nil =>
          rw [List.nil_append] at h
          cases h
          exact absurd rfl hb
        | cons x a2 =>
          rw [List.cons_append] at h
          injection h with h1 h2
          exact absurd h2.symm (by simp)
    | cons d rest2 =>
      have hred : dotNotLast (c :: d :: rest2) =
          (decide (c = '.') || dotNotLast (d :: rest2)) := rfl
      rw [hred, Bool.or_eq_true, decide_eq_true_iff, ih]
      constructor
      · rintro (rfl | ⟨a, b, hr, hb⟩)
        · exact ⟨[], d :: rest2, rfl, fun hx => List.noConfusion hx⟩
        · exact ⟨c :: a, b, by rw [hr, List.cons_append], hb⟩
      · rintro ⟨a, b, h, hb⟩
        cases a with
        | nil =>
          rw [List.nil_append] at h
          injection h with h1 h2
          exact Or.inl h1
        | cons x a2 =>
          rw [List.cons_append] at h
          injection h with h1 h2
          exact Or.inr ⟨a2, b, h2, hb⟩

theorem hasInteriorDot_iff (l : List Char) :
    hasInteriorDot l = true ↔
      ∃ d1 d2, l = d1 ++ '.' :: d2 ∧ d1 ≠ [] ∧ d2 ≠ [] := by
  cases l with
  | nil =>
    constructor
    · intro h
      exact absurd h (by simp [hasInteriorDot])
    · rintro ⟨d1, d2, h, hd1, -⟩
      cases d1 with
      | nil => exact absurd rfl hd1
      | cons x a => exact absurd h.symm (by simp)
  | cons c rest =>
    rw [hasInteriorDot, dotNotLast_iff]
    constructor
    · rintro ⟨a, b, hr, hb⟩
      exact ⟨c :: a, b, by rw [hr, List.cons_append], List.cons_ne_nil c a, hb⟩
    · rintro ⟨d1, d2, h, hd1, hd2⟩
      cases d1 with
      | nil => exact absurd rfl hd1
      | cons x a =>
        rw [List.cons_append] at h
        injection h with h1 h2
        exact ⟨a, d2, h2, hd2⟩

theorem emailClassB_ne_at (c : Char) (h : emailClassB c = true) : c ≠ '@' := by
  rw [emailClassB, Bool.and_eq_true, decide_eq_true_iff] at h
  exact h.1

theorem split_at_first_at (l r : List Char) (hl : ∀ c ∈ l, c ≠ '@') :
    (l ++ '@' :: r).takeWhile (fun c => decide (c ≠ '@')) = l ∧
    (l ++ '@' :: r).dropWhile (fun c => decide (c ≠ '@')) = '@' :: r := by
  constructor
  · rw [List.takeWhile_append_of_pos (fun c hc => by simpa using hl c hc),
      List.takeWhile_cons]
    simp
  · rw [List.dropWhile_append_of_pos (fun c hc => by simpa using hl c hc),
      List.dropWhile_cons]
    simp

theorem emailRegexMatches_iff (cs : List Char) :
    emailRegexMatches cs = true ↔
      ∃ locPart d1 d2 : List Char,
        cs = locPart ++ '@' :: (d1 ++ '.' :: d2) ∧
        locPart ≠ [] ∧ d1 ≠ [] ∧ d2 ≠ [] ∧
        (∀ c ∈ locPart, emailClassB c = true) ∧
        (∀ c ∈ d1, emailClassB c = true) ∧
        (∀ c ∈ d2, emailClassB c = true) := by
  constructor
  · intro h
    rcases e : cs.dropWhile (fun c => decide (c ≠ '@')) with _ | ⟨x, dom⟩
    · unfold emailRegexMatches at h
      rw [e] at h
      exact absurd h (by simp)
    · have hx : x = '@' := by
        have h2 := dropWhile_head_false _ _ _ _ e
        simpa using h2
      subst hx
      unfold emailRegexMatches at h
      rw [e] at h
      have h2 : (!(cs.takeWhile (fun c => decide (c ≠ '@'))).isEmpty &&
          (cs.takeWhile (fun c => decide (c ≠ '@'))).all emailClassB &&
          dom.all emailClassB && hasInteriorDot dom) = true := h
      rw [Bool.and_eq_true, Bool.and_eq_true, Bool.and_eq_true] at h2
      obtain ⟨⟨⟨hne, hallL⟩, hallD⟩, hdot⟩ := h2
      obtain ⟨d1, d2, hdom, hd1, hd2⟩ := (hasInteriorDot_iff dom).mp hdot
      subst hdom
      refine ⟨cs.takeWhile (fun c => decide (c ≠ '@')), d1, d2, ?_, ?_, hd1, hd2,
        ?_, ?_, ?_⟩
      · conv_lhs => rw [← List.takeWhile_append_dropWhile
          (p := fun c => decide (c ≠ '@')) (l := cs)]
        rw [e]
      · intro hnil
        rw [hnil] at hne
        exact absurd hne (by simp)
      · exact fun c hc => List.all_eq_true.mp hallL c hc
      · intro c hc
        exact List.all_eq_true.mp hallD c (List.mem_append.mpr (Or.inl hc))
      · intro c hc
        exact List.all_eq_true.mp hallD c
          (List.mem_append.mpr (Or.inr (List.mem_cons.mpr (Or.inr hc))))
  · rintro ⟨L, d1, d2, hcs, hL, hd1, hd2, hclL, hcl1, hcl2⟩
    subst hcs
    have hnoat : ∀ c ∈ L, c ≠ '@' := fun c hc => emailClassB_ne_at c (hclL c hc)
    obtain ⟨htake, hdrop⟩ := split_at_first_at L (d1 ++ '.' :: d2) hnoat
    have hred : emailRegexMatches (L ++ '@' :: (d1 ++ '.' :: d2)) =
        (!L.isEmpty && L.all emailClassB &&
          (d1 ++ '.' :: d2).all emailClassB && hasInteriorDot (d1 ++ '.' :: d2)) := by
      unfold emailRegexMatches
      rw [hdrop, htake]
      rfl
    rw [hred, Bool.and_eq_true, Bool.and_eq_true, Bool.and_eq_true]
    refine ⟨⟨⟨?_, ?_⟩, ?_⟩, ?_⟩
    · simp [hL]
    · exact List.all_eq_true.mpr hclL
    · refine List.all_eq_true.mpr fun c hc => ?_
      rcases List.mem_append.mp hc with hc1 | hc2
      · exact hcl1 c hc1
      · rcases List.mem_cons.mp hc2 with rfl | hc3
        · decide
        · exact hcl2 c hc3
    · exact (hasInteriorDot_iff _).mpr ⟨d1, d2, rfl, hd1, hd2⟩

/-! ## Helper lemmas: the JSON string round trip -/

theorem hexVal_hexDigitChar (d : Nat) (h : d < 16) :
    hexVal (hexDigitChar d) = some d := by
  interval_cases d <;> decide

theorem parseStringBody_enc (l rest : List Char) :
    parseStringBody (encBody l ++ '"' :: rest) = some (l, rest) := by
  induction l with
  | nil =>
    show parseStringBody ('"' :: rest) = some ([], rest)
    rw [parseStringBody.eq_def]
    simp
  | cons c l ih =>
    have he : encBody (c :: l) ++ '"' :: rest =
        encChar c ++ (encBody l ++ '"' :: rest) := by
      show (encChar c ++ encBody l) ++ '"' :: rest = _
      rw [List.append_assoc]
    rw [he, encChar]
    split_ifs with h1 h2 h3 h4 h5 h6 h7 h8
    · subst h1
      simp [parseStringBody, simpleEscape, ih]
    · subst h2
      simp [parseStringBody, simpleEscape, ih]
    · subst h3
      simp [parseStringBody, simpleEscape, ih]
    · subst h4
      simp [parseStringBody, simpleEscape, ih]
    · subst h5
      simp [parseStringBody, simpleEscape, ih]
    · subst h6
      simp [parseStringBody, simpleEscape, ih]
    · subst h7
      simp [parseStringBody, simpleEscape, ih]
    · have hv1 : hexVal '0' = some 0 := by decide
      have hv3 : hexVal (hexDigitChar (c.toNat / 16)) = some (c.toNat / 16) :=
        hexVal_hexDigitChar _ (by omega)
      have hv4 : hexVal (hexDigitChar (c.toNat % 16)) = some (c.toNat % 16) :=
        hexVal_hexDigitChar _ (by omega)
      simp [parseStringBody, hv1, hv3, hv4, ih]
      rw [show c.toNat / 16 * 16 + c.toNat % 16 = c.toNat from by omega,
        Char.ofNat_toNat]
    · rw [List.singleton_append, parseStringBody.eq_def]
      simp [h1, h2, h8, ih]

theorem skipWs_pad (n : Nat) (cs : List Char) : skipWs (pad n ++ cs) = skipWs cs := by
  refine List.dropWhile_append_of_pos fun c hc => ?_
  rw [List.eq_of_mem_replicate hc]
  decide

theorem skipWs_ws_cons (c : Char) (cs : List Char) (h : jsonWs c = true) :
    skipWs (c :: cs) = skipWs cs := by
  rw [skipWs, List.dropWhile_cons, if_pos h]
  rfl

theorem skipWs_not_ws (c : Char) (cs : List Char) (h : jsonWs c = false) :
    skipWs (c :: cs) = c :: cs := by
  rw [skipWs, List.dropWhile_cons, if_neg]
  rw [h]
  exact Bool.false_ne_true

theorem skipWs_nlPad (lvl : Nat) (cs : List Char) :
    skipWs (nlPad lvl ++ cs) = skipWs cs := by
  show skipWs ('\n' :: (pad (2 * lvl) ++ cs)) = skipWs cs
  rw [skipWs_ws_cons _ _ (by decide), skipWs_pad]

theorem insertPair_append (fs : List (String × Json)) (k : String) (v : Json)
    (h : ∀ q ∈ fs, q.1 ≠ k) : insertPair fs k v = fs ++ [(k, v)] := by
  rw [insertPair, if_neg]
  intro hany
  obtain ⟨q, hq, he⟩ := List.any_eq_true.mp hany
  exact h q hq (by simpa using he)

theorem parseValue_str_ws (f : Nat) (s : String) (pre rest : List Char)
    (hpre : ∀ c ∈ pre, jsonWs c = true) :
    parseValue (f + 1) (pre ++ (strLit s ++ rest)) = some (.str s, rest) := by
  have e1 : strLit s ++ rest = '"' :: (encBody s.data ++ '"' :: rest) := by
    show ('"' :: (encBody s.data ++ ['"'])) ++ rest = _
    rw [List.cons_append, List.append_assoc]
    rfl
  have e2 : skipWs (pre ++ (strLit s ++ rest)) =
      '"' :: (encBody s.data ++ '"' :: rest) := by
    show List.dropWhile jsonWs (pre ++ (strLit s ++ rest)) = _
    rw [List.dropWhile_append_of_pos hpre, e1]
    show skipWs ('"' :: (encBody s.data ++ '"' :: rest)) = _
    rw [skipWs_not_ws _ _ (by decide)]
  simp only [parseValue, e2, parseStringBody_enc, if_true]

theorem skipWs_newline (cs : List Char) : skipWs ('\n' :: cs) = skipWs cs :=
  skipWs_ws_cons _ _ (by decide)

theorem skipWs_space (cs : List Char) : skipWs (' ' :: cs) = skipWs cs :=
  skipWs_ws_cons _ _ (by decide)

theorem skipWs_quote (cs : List Char) : skipWs ('"' :: cs) = '"' :: cs :=
  skipWs_not_ws _ _ (by decide)

theorem skipWs_colon (cs : List Char) : skipWs (':' :: cs) = ':' :: cs :=
  skipWs_not_ws _ _ (by decide)

theorem skipWs_comma (cs : List Char) : skipWs (',' :: cs) = ',' :: cs :=
  skipWs_not_ws _ _ (by decide)

theorem skipWs_rbrace (cs : List Char) : skipWs ('\x7d' :: cs) = '\x7d' :: cs :=
  skipWs_not_ws _ _ (by decide)

theorem skipWs_rbracket (cs : List Char) : skipWs (']' :: cs) = ']' :: cs :=
  skipWs_not_ws _ _ (by decide)

theorem skipWs_lbrace (cs : List Char) : skipWs ('\x7b' :: cs) = '\x7b' :: cs :=
  skipWs_not_ws _ _ (by decide)

theorem skipWs_lbracket (cs : List Char) : skipWs ('[' :: cs) = '[' :: cs :=
  skipWs_not_ws _ _ (by decide)

theorem string_eta (s : String) : String.mk s.data = s := rfl

theorem parseValue_str_exp (f : Nat) (s : String) (rest : List Char) :
    parseValue (f + 1) (' ' :: ('"' :: (encBody s.data ++ '"' :: rest))) =
      some (.str s, rest) := by
  have e2 : skipWs (' ' :: ('"' :: (encBody s.data ++ '"' :: rest))) =
      '"' :: (encBody s.data ++ '"' :: rest) := by
    rw [skipWs_space, skipWs_quote]
  simp only [parseValue, e2, parseStringBody_enc, if_true]

theorem parseObjItems_strFields (fs : List (String × String)) :
    ∀ (k v : String) (f : Nat) (acc : List (String × Json)) (rest : List Char),
    fs.length + 2 ≤ f →
    (acc.map Prod.fst ++ k :: fs.map Prod.fst).Nodup →
    parseObjItems f
      (nlPad 2 ++ (dumpField 2 (k, Json.str v) ++
        (dumpObjRest 2 (fs.map fun p => (p.1, Json.str p.2)) ++
          (nlPad 1 ++ '\x7d' :: rest)))) acc =
      some (.obj (acc ++ (k, Json.str v) :: fs.map fun p => (p.1, Json.str p.2)), rest) := by
  induction fs with
  | nil =>
    intro k v f acc rest hf hnd
    obtain ⟨f2, rfl⟩ : ∃ f2, f = f2 + 1 + 1 := ⟨f - 2, by omega⟩
    have hdisj : ∀ q ∈ acc, q.1 ≠ k := by
      intro q hq he
      have h1 : q.1 ∈ acc.map Prod.fst := List.mem_map_of_mem _ hq
      exact (List.nodup_append.mp hnd).2.2 h1 (by rw [he]; exact List.mem_cons_self _ _)
    have hip := insertPair_append acc k (Json.str v) hdisj
    simp [parseObjItems, dumpField, dumpObjRest, dumpValue, strLit, nlPad,
      List.append_assoc, skipWs_pad, skipWs_newline, skipWs_space, skipWs_quote,
      skipWs_colon, skipWs_comma, skipWs_rbrace, parseStringBody_enc,
      parseValue_str_exp, string_eta, hip]
  | cons p fs2 ih =>
    intro k v f acc rest hf hnd
    obtain ⟨f2, rfl⟩ : ∃ f2, f = f2 + 1 + 1 := ⟨f - 2, by omega⟩
    have hdisj : ∀ q ∈ acc, q.1 ≠ k := by
      intro q hq he
      have h1 : q.1 ∈ acc.map Prod.fst := List.mem_map_of_mem _ hq
      exact (List.nodup_append.mp hnd).2.2 h1 (by rw [he]; exact List.mem_cons_self _ _)
    have hip := insertPair_append acc k (Json.str v) hdisj
    have hnd2 : ((acc ++ [(k, Json.str v)]).map Prod.fst ++
        p.1 :: fs2.map Prod.fst).Nodup := by
      simpa [List.map_append, List.append_assoc] using hnd
    have hIH := ih p.1 p.2 (f2 + 1) (acc ++ [(k, Json.str v)]) rest (by
      have := hf
      simp only [List.length_cons] at this
      omega) hnd2
    simp only [List.map_cons] at hIH
    simp [parseObjItems, dumpField, dumpObjRest, dumpValue, strLit, nlPad,
      List.append_assoc, skipWs_pad, skipWs_newline, skipWs_space, skipWs_quote,
      skipWs_colon, skipWs_comma, skipWs_rbrace, parseStringBody_enc,
      parseValue_str_exp, string_eta, hip] at hIH ⊢
    exact hIH

theorem parseValue_contact (f : Nat) (c : Contact) (rest : List Char) (hf : 6 ≤ f) :
    parseValue f (nlPad 1 ++ (dumpValue 1 (contactToJson c) ++ rest)) =
      some (contactToJson c, rest) := by
  obtain ⟨f1, rfl⟩ : ∃ f1, f = f1 + 1 := ⟨f - 1, by omega⟩
  have hOI := parseObjItems_strFields
    [("phone", c.phone), ("email", c.email), ("address", c.address)]
    "name" c.name f1 [] rest
    (by simp only [List.length_cons, List.length_nil]; omega)
    (by simp only [List.map_nil, List.map_cons, List.nil_append]; decide)
  simp only [List.map_cons, List.map_nil, List.nil_append] at hOI
  simp [parseValue, contactToJson, dumpValue, dumpField, dumpObjRest, strLit, nlPad,
    List.append_assoc, skipWs_pad, skipWs_newline, skipWs_space, skipWs_quote,
    skipWs_colon, skipWs_comma, skipWs_rbrace, skipWs_lbrace,
    parseStringBody_enc, parseValue_str_exp, string_eta] at hOI ⊢
  exact hOI

theorem parseArrItems_contacts (cs : List Contact) :
    ∀ (c : Contact) (f : Nat) (acc : List Json) (rest : List Char),
    cs.length + 7 ≤ f →
    parseArrItems f
      (nlPad 1 ++ (dumpValue 1 (contactToJson c) ++
        (dumpArrRest 1 (cs.map contactToJson) ++ (nlPad 0 ++ ']' :: rest)))) acc =
      some (.arr (acc ++ (c :: cs).map contactToJson), rest) := by
  induction cs with
  | nil =>
    intro c f acc rest hf
    obtain ⟨f1, rfl⟩ : ∃ f1, f = f1 + 1 := ⟨f - 1, by omega⟩
    have hv := parseValue_contact f1 c
      (dumpArrRest 1 (([] : List Contact).map contactToJson) ++ (nlPad 0 ++ ']' :: rest))
      (by omega)
    simp [contactToJson, dumpValue, dumpField, dumpObjRest, dumpArrRest, strLit,
      nlPad, pad, List.append_assoc] at hv
    simp [parseArrItems, contactToJson, dumpValue, dumpField, dumpObjRest,
      dumpArrRest, strLit, nlPad, pad, List.append_assoc, hv, skipWs_newline,
      skipWs_rbracket]
  | cons c2 cs2 ih =>
    intro c f acc rest hf
    obtain ⟨f1, rfl⟩ : ∃ f1, f = f1 + 1 := ⟨f - 1, by omega⟩
    have hv := parseValue_contact f1 c
      (dumpArrRest 1 ((c2 :: cs2).map contactToJson) ++ (nlPad 0 ++ ']' :: rest))
      (by simp only [List.length_cons] at hf; omega)
    simp [contactToJson, dumpValue, dumpField, dumpObjRest, dumpArrRest, strLit,
      nlPad, pad, List.append_assoc] at hv
    have hIH := ih c2 f1 (acc ++ [contactToJson c]) rest
      (by simp only [List.length_cons] at hf ⊢; omega)
    simp [contactToJson, dumpValue, dumpField, dumpObjRest, dumpArrRest, strLit,
      nlPad, pad, List.append_assoc] at hIH
    simp [parseArrItems, contactToJson, dumpValue, dumpField, dumpObjRest,
      dumpArrRest, strLit, nlPad, pad, List.append_assoc, hv, skipWs_newline,
      skipWs_comma] at hIH ⊢
    exact hIH

theorem parseValue_contacts (f : Nat) (st : List Contact) (rest : List Char)
    (hne : st ≠ []) (hf : st.length + 8 ≤ f) :
    parseValue f (dumpValue 0 (contactsToJson st) ++ rest) =
      some (contactsToJson st, rest) := by
  obtain ⟨c, cs, rfl⟩ : ∃ c cs, st = c :: cs := by
    cases st with
    | nil => exact absurd rfl hne
    | cons c cs => exact ⟨c, cs, rfl⟩
  obtain ⟨f1, rfl⟩ : ∃ f1, f = f1 + 1 := ⟨f - 1, by omega⟩
  have hAI := parseArrItems_contacts cs c f1 [] rest
    (by simp only [List.length_cons] at hf; omega)
  simp [contactsToJson, contactToJson, dumpValue, dumpField, dumpObjRest,
    dumpArrRest, strLit, nlPad, pad, List.append_assoc] at hAI
  simp [parseValue, contactsToJson, contactToJson, dumpValue, dumpField,
    dumpObjRest, dumpArrRest, strLit, nlPad, pad, List.append_assoc,
    skipWs_newline, skipWs_lbracket, skipWs_lbrace] at hAI ⊢
  exact hAI

theorem dumpArrRest_length (lvl : Nat) (xs : List Json) :
    xs.length ≤ (dumpArrRest lvl xs).length := by
  induction xs with
  | nil => simp [dumpArrRest]
  | cons x xs ih =>
    simp only [dumpArrRest, List.length_cons, List.length_append]
    omega

theorem dump_contacts_length (st : List Contact) (hne : st ≠ []) :
    st.length + 8 ≤ (dumpValue 0 (contactsToJson st)).length + 1 := by
  obtain ⟨c, cs, rfl⟩ : ∃ c cs, st = c :: cs := by
    cases st with
    | nil => exact absurd rfl hne
    | cons c cs => exact ⟨c, cs, rfl⟩
  have harr := dumpArrRest_length 1 (cs.map contactToJson)
  rw [List.length_map] at harr
  have hobj : 9 ≤ (dumpValue 1 (contactToJson c)).length := by
    simp [contactToJson, dumpValue, dumpField, dumpObjRest, strLit, nlPad, pad,
      List.length_append]
    omega
  simp only [contactsToJson, List.map_cons, dumpValue, List.length_cons,
    List.length_append, nlPad, pad, List.length_replicate, Nat.zero_add,
    List.length_nil]
  omega

theorem parseJson_save (st : List Contact) (hne : st ≠ []) :
    parseJson (save_contacts (contactsToJson st)) = some (contactsToJson st) := by
  have hlen := dump_contacts_length st hne
  have hdata : (save_contacts (contactsToJson st)).data =
      dumpValue 0 (contactsToJson st) := rfl
  have hp := parseValue_contacts ((dumpValue 0 (contactsToJson st)).length + 1) st []
    hne hlen
  rw [List.append_nil] at hp
  simp only [parseJson, hdata, hp]
  rfl

/-! ## Claims -/

/-- C1: given the ordered list of matched positions and an all-digits
choice string, both update and delete resolve it by the exact two-step
rule: a valid 1-based rank into the match list selects the position at
that rank; otherwise a valid 1-based absolute position into the full
store selects that position minus one; otherwise resolution fails and no
record is selected. -/
theorem selection_resolution (hits : List Nat) (storeLen : Nat) (choice : String)
    (hdig : pyIsDigitStr choice = true) :
    (∀ p, hits.get? (pyIntOfDigits choice - 1) = some p →
      1 ≤ pyIntOfDigits choice → pyIntOfDigits choice ≤ hits.length →
      resolveSelection hits storeLen choice = some p) ∧
    (¬(1 ≤ pyIntOfDigits choice ∧ pyIntOfDigits choice ≤ hits.length) →
      1 ≤ pyIntOfDigits choice → pyIntOfDigits choice ≤ storeLen →
      resolveSelection hits storeLen choice = some (pyIntOfDigits choice - 1)) ∧
    (¬(1 ≤ pyIntOfDigits choice ∧ pyIntOfDigits choice ≤ hits.length) →
      ¬(1 ≤ pyIntOfDigits choice ∧ pyIntOfDigits choice ≤ storeLen) →
      resolveSelection hits storeLen choice = none) := by
  have e : resolveSelection hits storeLen choice =
      if 1 ≤ pyIntOfDigits choice ∧ pyIntOfDigits choice ≤ hits.length then
        some (hits.getD (pyIntOfDigits choice - 1) 0)
      else if 1 ≤ pyIntOfDigits choice ∧ pyIntOfDigits choice ≤ storeLen then
        some (pyIntOfDigits choice - 1)
      else none := by
    simp only [resolveSelection, hdig, if_true]
  refine ⟨?_, ?_, ?_⟩
  · intro p hget h1 h2
    rw [List.get?_eq_getElem?] at hget
    rw [e, if_pos ⟨h1, h2⟩, List.getD_eq_getElem?_getD, hget]
    rfl
  · intro hn h1 h2
    rw [e, if_neg hn, if_pos ⟨h1, h2⟩]
  · intro hn1 hn2
    rw [e, if_neg hn1, if_neg hn2]

/-- C1 witness: over match list `[3, 7]` and a store of size 10, input
`"2"` resolves by rank to position 7 and input `"5"` resolves as absolute
index to position 4. -/
theorem selection_resolution_witness :
    resolveSelection [3, 7] 10 "2" = some 7 ∧ resolveSelection [3, 7] 10 "5" = some 4 := by
  constructor
  · exact (selection_resolution [3, 7] 10 "2" (by decide)).1 7 (by decide) (by decide)
      (by decide)
  · exact (selection_resolution [3, 7] 10 "5" (by decide)).2.1 (by decide) (by decide)
      (by decide)

/-- C3: `valid_phone(s)` holds exactly when `s` contains at least 6 digit
characters; `"abc12-34(56)"` is valid, `"12345"` is not. -/
theorem valid_phone_digit_count :
    (∀ s : String, valid_phone s = true ↔ 6 ≤ s.data.countP (fun c => c.isDigit)) ∧
    valid_phone "abc12-34(56)" = true ∧ valid_phone "12345" = false := by
  refine ⟨fun s => ?_, by decide, by decide⟩
  rw [valid_phone, decide_eq_true_iff, List.countP_eq_length_filter]

/-- C4 counterexample: the claim calls the empty string valid, but
`valid_email("")` is false in the code (the prompt layer merely skips
validation for blank input); moreover the regex `$` also accepts one
trailing newline, which the claimed shape would reject. -/
theorem valid_email_claim_false :
    valid_email "" = false ∧ valid_email "a@b.com\n" = true := by
  exact ⟨by decide, by decide⟩

/-- C4 (amended): `valid_email(s)` is true iff `s`, after ignoring at
most one trailing newline (an artifact of the regex anchor `$`), splits
as one-or-more non-`@`/non-space characters, `@`, one-or-more
non-`@`/non-space characters, `.`, one-or-more non-`@`/non-space
characters; the empty string is not accepted by `valid_email` itself. -/
theorem valid_email_characterization (s : String) :
    valid_email s = true ↔
      ∃ locPart d1 d2 : List Char,
        stripFinalNewline s.data = locPart ++ '@' :: (d1 ++ '.' :: d2) ∧
        locPart ≠ [] ∧ d1 ≠ [] ∧ d2 ≠ [] ∧
        (∀ c ∈ locPart, emailClassB c = true) ∧
        (∀ c ∈ d1, emailClassB c = true) ∧
        (∀ c ∈ d2, emailClassB c = true) := by
  rw [valid_email]
  exact emailRegexMatches_iff (stripFinalNewline s.data)

/-- C2 counterexample: the term `" jo "` is not a case-insensitive
substring of `"John"` (nor of its empty phone), yet search returns
position 0, because the code strips the term before matching. -/
theorem search_claim_false :
    search_contacts [⟨"John", "", "", ""⟩] " jo " = [0] ∧
    ¬(∃ pre post, pyLowerL "John".data = pre ++ pyLowerL " jo ".data ++ post) ∧
    ¬(∃ pre post, pyLowerL "".data = pre ++ pyLowerL " jo ".data ++ post) := by
  refine ⟨by decide, ?_, ?_⟩
  · intro hex
    exact absurd ((containsSub_iff (pyLowerL " jo ".data) (pyLowerL "John".data)).mpr hex)
      (by decide)
  · intro hex
    exact absurd ((containsSub_iff (pyLowerL " jo ".data) (pyLowerL "".data)).mpr hex)
      (by decide)

/-- C2 (amended): for every store and every non-empty search term
without leading or trailing whitespace, search returns exactly the
positions of records whose name or raw phone text contains the term as a
case-insensitive substring, in strictly increasing store order. -/
theorem search_exact_matches (contacts : List Contact) (term : String)
    (hstrip : pyStrip term = term) (_hne : term ≠ "") :
    (∀ i, i ∈ search_contacts contacts term ↔
      ∃ c, contacts.get? i = some c ∧
        ((∃ pre post, pyLowerL c.name.data = pre ++ pyLowerL term.data ++ post) ∨
         (∃ pre post, pyLowerL c.phone.data = pre ++ pyLowerL term.data ++ post))) ∧
    (search_contacts contacts term).Pairwise (· < ·) := by
  have hstripL : pyStripL term.data = term.data := congrArg String.data hstrip
  have hneedle : pyStripL (pyLowerL term.data) = pyLowerL term.data := by
    rw [pyStripL_lowerL_comm, hstripL]
  constructor
  · intro i
    rw [search_contacts, hneedle, searchAux_mem]
    constructor
    · rintro ⟨j, c, hg, hm, rfl⟩
      refine ⟨c, by simpa using hg, ?_⟩
      rw [matchesTerm, Bool.or_eq_true] at hm
      rcases hm with hm | hm
      · exact Or.inl ((containsSub_iff _ _).mp hm)
      · exact Or.inr ((containsSub_iff _ _).mp hm)
    · rintro ⟨c, hg, hm⟩
      refine ⟨i, c, hg, ?_, (Nat.zero_add i).symm⟩
      rw [matchesTerm, Bool.or_eq_true]
      rcases hm with hm | hm
      · exact Or.inl ((containsSub_iff _ _).mpr hm)
      · exact Or.inr ((containsSub_iff _ _).mpr hm)
  · rw [search_contacts]
    exact searchAux_sorted _ _ _

/-- C2 witness: searching `"jo"` over the store `[John, Anna]` matches
position 0. -/
theorem search_exact_matches_witness :
    0 ∈ search_contacts [⟨"John", "", "", ""⟩, ⟨"Anna", "", "", ""⟩] "jo" := by
  exact ((search_exact_matches [⟨"John", "", "", ""⟩, ⟨"Anna", "", "", ""⟩] "jo"
    (by decide) (by decide)).1 0).mpr
    ⟨⟨"John", "", "", ""⟩, by decide, Or.inl ⟨[], ['h', 'n'], by decide⟩⟩

/-- C10: search lowercases and strips the term before matching, so a
term is interchangeable with its stripped form, and a whitespace-only
term behaves like the empty term and matches every record. -/
theorem search_term_stripped (contacts : List Contact) (term : String) :
    search_contacts contacts term = search_contacts contacts (pyStrip term) ∧
    (pyStrip term = "" → search_contacts contacts term = List.range contacts.length) := by
  constructor
  · rw [search_contacts, search_contacts]
    have hd : (pyStrip term).data = pyStripL term.data := rfl
    rw [hd, ← pyStripL_lowerL_strip]
  · intro h
    have hdata : pyStripL term.data = [] := congrArg String.data h
    have hws := pyStripL_all_ws term.data hdata
    rw [search_contacts, pyLowerL_ws term.data hws, hdata, searchAux_nil_needle,
      List.range_eq_range']

/-- C10 witness: a whitespace-only term matches the whole store. -/
theorem search_term_stripped_witness :
    search_contacts [⟨"John", "", "", ""⟩] "  " = List.range 1 := by
  exact (search_term_stripped [⟨"John", "", "", ""⟩] "  ").2 (by decide)

/-- C5: in one prompt round, every field of the produced contact falls
back to the existing value exactly when its stripped input is blank; a
record is produced (and only then persisted) iff the resolved name is
non-empty and the resolved phone and email are blank or valid; and an
add with a blank name leaves the store unchanged with no persistence
write. -/
theorem build_record_contract :
    (∀ existing nIn pIn eIn aIn c, build_record existing nIn pIn eIn aIn = .ok c →
      (pyStrip nIn = "" → c.name = existingField existing Contact.name) ∧
      (pyStrip pIn = "" → c.phone = existingField existing Contact.phone) ∧
      (pyStrip eIn = "" → c.email = existingField existing Contact.email) ∧
      (pyStrip aIn = "" → c.address = existingField existing Contact.address)) ∧
    (∀ existing nIn pIn eIn aIn,
      (∃ c, build_record existing nIn pIn eIn aIn = .ok c) ↔
        (fallback nIn (existingField existing Contact.name) ≠ "" ∧
         (fallback pIn (existingField existing Contact.phone) = "" ∨
           valid_phone (fallback pIn (existingField existing Contact.phone)) = true) ∧
         (fallback eIn (existingField existing Contact.email) = "" ∨
           valid_email (fallback eIn (existingField existing Contact.email)) = true))) ∧
    (∀ contacts nIn pIn eIn aIn, pyStrip nIn = "" →
      add_contact contacts nIn pIn eIn aIn = (contacts, false)) := by
  refine ⟨?_, ?_, ?_⟩
  · intro existing nIn pIn eIn aIn c h
    simp only [build_record] at h
    split_ifs at h with hA hB hC
    injection h with h
    subst h
    refine ⟨fun hn => ?_, fun hp => ?_, fun he => ?_, fun ha => ?_⟩
    · show fallback nIn (existingField existing Contact.name) =
        existingField existing Contact.name
      rw [fallback, if_pos hn]
    · show fallback pIn (existingField existing Contact.phone) =
        existingField existing Contact.phone
      rw [fallback, if_pos hp]
    · show fallback eIn (existingField existing Contact.email) =
        existingField existing Contact.email
      rw [fallback, if_pos he]
    · show fallback aIn (existingField existing Contact.address) =
        existingField existing Contact.address
      rw [fallback, if_pos ha]
  · intro existing nIn pIn eIn aIn
    simp only [build_record]
    split_ifs with hA hB hC
    · simp [hA]
    · simp only [Bool.and_eq_true, decide_eq_true_iff, Bool.not_eq_true'] at hB
      simp [hB.1, hB.2]
    · simp only [Bool.and_eq_true, decide_eq_true_iff, Bool.not_eq_true'] at hC
      simp [hC.1, hC.2]
    · simp only [Bool.and_eq_true, decide_eq_true_iff, Bool.not_eq_true'] at hB hC
      push_neg at hB hC
      refine ⟨fun _ => ⟨hA, ?_, ?_⟩, fun _ => ⟨_, rfl⟩⟩
      · by_cases hp : fallback pIn (existingField existing Contact.phone) = ""
        · exact Or.inl hp
        · exact Or.inr (Bool.not_eq_false _ ▸ hB hp)
      · by_cases he : fallback eIn (existingField existing Contact.email) = ""
        · exact Or.inl he
        · exact Or.inr (Bool.not_eq_false _ ▸ hC he)
  · intro contacts nIn pIn eIn aIn h
    have hfb : fallback nIn (existingField none Contact.name) = "" := by
      rw [existingField, fallback, if_pos h]
    simp [add_contact, build_record, hfb]

/-- C5 witness: one blank-input round over an existing record keeps its
name, and adding with a blank name writes nothing. -/
theorem build_record_contract_witness :
    add_contact [] "" "x" "y" "z" = ([], false) ∧
    (Contact.mk "John" "123456" "a@b.com" "12 X St").name =
      existingField (some (Contact.mk "John" "123456" "a@b.com" "12 X St"))
        Contact.name := by
  constructor
  · exact build_record_contract.2.2 [] "" "x" "y" "z" (by decide)
  · exact (build_record_contract.1 (some (Contact.mk "John" "123456" "a@b.com" "12 X St"))
      "" "" "" "" (Contact.mk "John" "123456" "a@b.com" "12 X St") (by rfl)).1 (by decide)

/-- C7 counterexample: the confirmation input `"Y"` is not the string
`"y"`, yet the code strips and lowercases it and deletes the record. -/
theorem delete_uppercase_confirm_deletes :
    delete_contact [⟨"John", "123456", "", ""⟩] "jo" "1" "Y" =
      ([], true, DeleteOutcome.deleted) ∧ ("Y" : String) ≠ "y" :=
  ⟨by decide, by decide⟩

/-- C7 (amended): once a record is selected for deletion, a confirmation
whose stripped lowercased form is not `"y"` leaves the store unchanged,
reports a cancellation, and never calls the persistence write; the
record is removed and saved exactly when that normalized form is `"y"`. -/
theorem delete_confirmation_gate (contacts : List Contact)
    (termIn choiceIn confirmIn : String) (idx : Nat)
    (ht : pyStrip termIn ≠ "")
    (hh : (search_contacts contacts (pyStrip termIn)).isEmpty = false)
    (hc : pyStrip choiceIn ≠ "")
    (hr : resolveSelection (search_contacts contacts (pyStrip termIn)) contacts.length
      (pyStrip choiceIn) = some idx) :
    (pyLower (pyStrip confirmIn) ≠ "y" →
      delete_contact contacts termIn choiceIn confirmIn =
        (contacts, false, DeleteOutcome.deletionCanceled)) ∧
    (pyLower (pyStrip confirmIn) = "y" →
      delete_contact contacts termIn choiceIn confirmIn =
        (contacts.eraseIdx idx, true, DeleteOutcome.deleted)) := by
  have e : delete_contact contacts termIn choiceIn confirmIn =
      if pyLower (pyStrip confirmIn) = "y" then
        (contacts.eraseIdx idx, true, DeleteOutcome.deleted)
      else (contacts, false, DeleteOutcome.deletionCanceled) := by
    simp only [delete_contact, ht, hh, hc, hr, Bool.false_eq_true, if_false]
  refine ⟨fun hcf => ?_, fun hcf => ?_⟩
  · rw [e, if_neg hcf]
  · rw [e, if_pos hcf]

/-- C7 witness: with the record selected, `"n"` cancels without saving
and `"y"` deletes and saves. -/
theorem delete_confirmation_gate_witness :
    delete_contact [⟨"John", "123456", "", ""⟩] "jo" "1" "n" =
      ([⟨"John", "123456", "", ""⟩], false, DeleteOutcome.deletionCanceled) ∧
    delete_contact [⟨"John", "123456", "", ""⟩] "jo" "1" "y" =
      ([], true, DeleteOutcome.deleted) := by
  constructor
  · exact (delete_confirmation_gate [⟨"John", "123456", "", ""⟩] "jo" "1" "n" 0
      (by decide) (by decide) (by decide) (by decide)).1 (by decide)
  · exact (delete_confirmation_gate [⟨"John", "123456", "", ""⟩] "jo" "1" "y" 0
      (by decide) (by decide) (by decide) (by decide)).2 (by decide)

/-- C6 counterexample: `load_contacts` returns whatever the file parses
to, with no validation, so a stored file holding a record with an empty
name (and no phone/email/address keys) is loaded as-is, violating the
claimed invariant for records produced by load. -/
theorem load_invariant_false :
    load_contacts (some "[\x7b\"name\": \"\"\x7d]") =
      Json.arr [Json.obj [("name", Json.str "")]] ∧
    recordsOkB (Json.arr [Json.obj [("name", Json.str "")]]) = false := by
  exact ⟨by rfl, by rfl⟩

/-- C6 (amended): every contact produced by a successful prompt round
(used by both add and update) carries all four fields with a non-empty
name, and add/update preserve the non-empty-name invariant store-wide;
load merely returns the parsed file content, so loaded records satisfy
the invariant only when the file content does. -/
theorem contact_invariant (existing : Option Contact)
    (nIn pIn eIn aIn : String) (c : Contact)
    (h : build_record existing nIn pIn eIn aIn = .ok c) :
    c.name ≠ "" ∧ recordOkB (contactToJson c) = true ∧
    (∀ contacts : List Contact, (∀ d ∈ contacts, d.name ≠ "") →
      (∀ d ∈ contacts ++ [c], d.name ≠ "") ∧
      (∀ idx, ∀ d ∈ update_apply contacts idx c, d.name ≠ "")) := by
  have hname : c.name ≠ "" := by
    simp only [build_record] at h
    split_ifs at h with hA hB hC
    injection h with h
    subst h
    exact hA
  refine ⟨hname, ?_, ?_⟩
  · have hr : recordOkB (contactToJson c) =
        (((!c.name.isEmpty && true) && true) && true) := rfl
    rw [hr, Bool.and_true, Bool.and_true, Bool.and_true, Bool.not_eq_true',
      ← Bool.not_eq_true]
    intro he
    exact hname ((String.isEmpty_iff c.name).mp he)
  · intro contacts hall
    constructor
    · intro d hd
      rcases List.mem_append.mp hd with hd1 | hd2
      · exact hall d hd1
      · rcases List.mem_cons.mp hd2 with rfl | hd3
        · exact hname
        · exact absurd hd3 (List.not_mem_nil d)
    · intro idx d hd
      rcases List.mem_or_eq_of_mem_set hd with hd1 | rfl
      · exact hall d hd1
      · exact hname

/-- C6 witness: the contact built from the inputs John / 123456 / blank /
blank has a non-empty name and all four fields present in its stored
form. -/
theorem contact_invariant_witness :
    (Contact.mk "John" "123456" "" "").name ≠ "" ∧
    recordOkB (contactToJson (Contact.mk "John" "123456" "" "")) = true := by
  have h := contact_invariant none "John" "123456" "" ""
    (Contact.mk "John" "123456" "" "") (by rfl)
  exact ⟨h.1, h.2.1⟩

/-- C8: `load_contacts` returns the empty store when the file is absent,
and silently returns the empty store when the file content fails to
parse as JSON, e.g. on a truncated object or on plain prose; no error is
propagated (the function always returns a value). -/
theorem load_error_recovery :
    load_contacts none = Json.arr [] ∧
    (∀ s, parseJson s = none → load_contacts (some s) = Json.arr []) ∧
    load_contacts (some "\x7b\"name\": ") = Json.arr [] ∧
    load_contacts (some "not json") = Json.arr [] := by
  refine ⟨rfl, fun s h => ?_, by rfl, by rfl⟩
  simp only [load_contacts, h]

/-- C8 witness: the malformed content `"["` makes the parse fail and
load yields the empty store. -/
theorem load_error_recovery_witness :
    load_contacts (some "[") = Json.arr [] :=
  load_error_recovery.2.1 "[" (by rfl)

/-- C9: for every non-empty store, the file content written by save,
re-read with load and written again with save, is byte-for-byte the same
content: load inverts save on save-produced content, so save ∘ load is
the identity there. -/
theorem save_load_roundtrip (st : List Contact) (hne : st ≠ []) :
    load_contacts (some (save_contacts (contactsToJson st))) = contactsToJson st ∧
    save_contacts (load_contacts (some (save_contacts (contactsToJson st)))) =
      save_contacts (contactsToJson st) := by
  have h := parseJson_save st hne
  have hl : load_contacts (some (save_contacts (contactsToJson st))) =
      contactsToJson st := by
    simp only [load_contacts, h]
  exact ⟨hl, by rw [hl]⟩

/-- C9 witness: round trip on a concrete one-record store. -/
theorem save_load_roundtrip_witness :
    save_contacts (load_contacts (some (save_contacts (contactsToJson
      [⟨"John", "12 34-56", "a@b.com", "1 Main St"⟩])))) =
      save_contacts (contactsToJson [⟨"John", "12 34-56", "a@b.com", "1 Main St"⟩]) :=
  (save_load_roundtrip [⟨"John", "12 34-56", "a@b.com", "1 Main St"⟩] (by decide)).2

end ContactBook
